import Mathlib

/-!
Shallow embedding of the chunked memory-layout planner of this repository
(`MemAllocatorHelper` and `KernelTraits` in namespace `gemm`), together with
proofs checking the natural-language specification's claims against it.

Modelling conventions:

* The C++ machine integers here are `int32_t`; every quantity the planner
  handles (sizes, alignments, offsets, indices) is contractually non-negative
  (the spec requires `sizeBytes ≥ 0` and overflow of signed arithmetic is
  undefined behaviour in the source language), so they are embedded as `Nat`
  with exact arithmetic.
* `TLLM_CHECK_ERROR` raises a fatal error; fallible computations are embedded
  in `Except LayoutError`.
* Indexing a `std::vector` out of range is unchecked in the source: the code
  has no bounds test and no error path there, the access is undefined
  behaviour. The embedding marks exactly those accesses with the explicit
  marker `LayoutError.undefinedBehavior`; it asserts nothing about what the
  C++ would return there.
* The single recursive call in `getChunkOffset` always targets chunk 0, so it
  is unfolded once; the self-referential case (chunk 0 itself marked reused,
  on which the C++ recursion never returns) is embedded as the explicit error
  `LayoutError.nonTermination`.
-/

namespace gemm

/-- Outcomes of the layout planner other than an offset:
`invalidAlignment` is the one fatal error the source actually raises
(`TLLM_CHECK_ERROR` on the power-of-two check); `undefinedBehavior` marks
an unchecked out-of-range `std::vector` access (the source has no bounds
test and no error path there — the behaviour is undefined, so the
embedding stops rather than invent a result); `nonTermination` marks the
one input (chunk 0 marked reused) on which the C++ `getChunkOffset`
recursion would never return. -/
inductive LayoutError where
  | invalidAlignment
  | undefinedBehavior
  | nonTermination
deriving DecidableEq, Repr

/-- One chunk of the layout: the value type `(sizeBytes, alignment,
reuseFirstChunk)` the spec calls a Chunk Descriptor. In the source the
same data is carried by an entry of `mNumBytesAndAlignmentPerSmemChunk`
paired with the like-indexed entry of `mFirstChunkReuse`. -/
structure ChunkDesc where
  sizeBytes : Nat
  alignment : Nat
  reuseFirstChunk : Bool
deriving DecidableEq, Repr

/-- State of `class MemAllocatorHelper`: the two parallel vectors set by its
constructor. -/
structure MemAllocatorHelper where
  mNumBytesAndAlignmentPerSmemChunk : List (Nat × Nat)
  mFirstChunkReuse : List Bool
deriving DecidableEq, Repr

/-- Builds a `MemAllocatorHelper` from one list of chunk descriptors: the
two constructor arguments (`sizes`, `reuse`) are its per-field projections,
exactly the parallel `emplace_back` sequences of the source. -/
def helperOfChunks (C : List ChunkDesc) : MemAllocatorHelper where
  mNumBytesAndAlignmentPerSmemChunk := C.map fun c => (c.sizeBytes, c.alignment)
  mFirstChunkReuse := C.map fun c => c.reuseFirstChunk

/-- `MemAllocatorHelper::getSizePaddedToAlignment(size, alignment)`:
`TLLM_CHECK_ERROR((alignment & (alignment - 1)) == 0)` then
`return (size + alignment - 1) & ~(alignment - 1);`.

For every `alignment` that passes the check — the powers of two, and the
degenerate `0` which also satisfies `alignment & (alignment - 1) == 0` —
the C++ bit-clearing `x & ~(alignment - 1)` equals `x - x % alignment`
(for a power of two it clears the low bits, i.e. subtracts the remainder;
for `alignment = 0` the mask `~(0 - 1)` is `0` and the result is `0`, and
`x - x % 0 = x - x = 0` likewise), which is how it is written here. -/
def getSizePaddedToAlignment (size alignment : Nat) : Except LayoutError Nat :=
  if alignment &&& (alignment - 1) = 0 then
    Except.ok ((size + alignment - 1) - (size + alignment - 1) % alignment)
  else
    Except.error LayoutError.invalidAlignment

/-- Loop body of `MemAllocatorHelper::getOffsetBeforeChunk`: with `jj`
iterations still to run, consume the chunk at the loop cursor, update the
running `total` exactly as the C++ `if / else if` chain does, and recurse.
Running past the end of either vector would be an unchecked out-of-range
`operator[]` access — undefined behaviour, marked `undefinedBehavior`. -/
def offsetBeforeAux :
    List (Nat × Nat) → List Bool → Nat → Nat → Except LayoutError Nat
  | _, _, 0, total => Except.ok total
  | [], _, _ + 1, _ => Except.error LayoutError.undefinedBehavior
  | elem :: restSizes, reuses, jj + 1, total =>
    match getSizePaddedToAlignment elem.1 elem.2 with
    | Except.error e => Except.error e
    | Except.ok paddedSize =>
      match reuses with
      | [] => Except.error LayoutError.undefinedBehavior
      | reuseFlag :: restReuse =>
        offsetBeforeAux restSizes restReuse jj
          (if reuseFlag ∧ total < paddedSize then paddedSize
           else if ¬ reuseFlag then total + paddedSize
           else total)

/-- `MemAllocatorHelper::getOffsetBeforeChunk(jj)`: `totalSize = 0`, then for
`ii` in `[0, jj)` read `mNumBytesAndAlignmentPerSmemChunk[ii]`, compute its
padded size, and either stretch to it (reused and larger), add it (not
reused), or skip it. -/
def getOffsetBeforeChunk (h : MemAllocatorHelper) (jj : Nat) :
    Except LayoutError Nat :=
  offsetBeforeAux h.mNumBytesAndAlignmentPerSmemChunk h.mFirstChunkReuse jj 0

/-- Non-reused branch of `MemAllocatorHelper::getChunkOffset(ii)`:
`offset = getOffsetBeforeChunk(ii)` padded to
`mNumBytesAndAlignmentPerSmemChunk[ii].second` (that unchecked access is
undefined behaviour when `ii` is out of range). -/
def getChunkOffsetAt (h : MemAllocatorHelper) (ii : Nat) :
    Except LayoutError Nat :=
  match getOffsetBeforeChunk h ii with
  | Except.error e => Except.error e
  | Except.ok offset =>
    match h.mNumBytesAndAlignmentPerSmemChunk[ii]? with
    | none => Except.error LayoutError.undefinedBehavior
    | some elem => getSizePaddedToAlignment offset elem.2

/-- `MemAllocatorHelper::getChunkOffset(ii)`: reads `mFirstChunkReuse[ii]`
with no bounds check (undefined behaviour when `ii` is out of range); if
the flag is set, `return getChunkOffset(0);` — the one recursive call,
whose target is always index 0, unfolded here once (if chunk 0 is itself
marked reused the C++ recursion never returns: `nonTermination`);
otherwise the non-reused computation at `ii`. -/
def getChunkOffset (h : MemAllocatorHelper) (ii : Nat) :
    Except LayoutError Nat :=
  match h.mFirstChunkReuse[ii]? with
  | none => Except.error LayoutError.undefinedBehavior
  | some true =>
    match h.mFirstChunkReuse[0]? with
    | none => Except.error LayoutError.undefinedBehavior
    | some true => Except.error LayoutError.nonTermination
    | some false => getChunkOffsetAt h 0
  | some false => getChunkOffsetAt h ii

/-- `MemAllocatorHelper::getTotalSize()`:
`getOffsetBeforeChunk(mNumBytesAndAlignmentPerSmemChunk.size())`. -/
def getTotalSize (h : MemAllocatorHelper) : Except LayoutError Nat :=
  getOffsetBeforeChunk h h.mNumBytesAndAlignmentPerSmemChunk.length

/-- Modelled from the spec (§4.2): `roundUp(size, alignment)` is the
smallest multiple of `alignment` that is `≥ size`, written as
`alignment * ceil(size / alignment)`. Used only on the specification side,
to be compared with the code's `getSizePaddedToAlignment`. -/
def roundUpSpec (size alignment : Nat) : Nat :=
  alignment * ((size + alignment - 1) / alignment)

/-- Modelled from the spec (§4.2): one step of the `offsetBefore`
accumulation — `padded = roundUp(sizeBytes, alignment)`; if
`reuseFirstChunk` and `padded > total`, set `total = padded`; else if
`reuseFirstChunk` is false, add `padded` to `total`; otherwise leave
`total` unchanged. -/
def specStep (total : Nat) (c : ChunkDesc) : Nat :=
  let padded := roundUpSpec c.sizeBytes c.alignment
  if c.reuseFirstChunk ∧ total < padded then padded
  else if ¬ c.reuseFirstChunk then total + padded
  else total

/-- Modelled from the spec (§4.2): `offsetBefore(j)` as the fold of
`specStep` over the prefix `C[0..j)` starting from `total = 0`. -/
def specOffsetBefore (C : List ChunkDesc) (j : Nat) : Nat :=
  (C.take j).foldl specStep 0

/-- Alignments that pass the source's check `(alignment & (alignment - 1)) == 0`,
for every chunk of a sequence. -/
def alignsOk (C : List ChunkDesc) : Prop :=
  ∀ c ∈ C, c.alignment &&& (c.alignment - 1) = 0

/-- A power of two passes the check `(alignment & (alignment - 1)) == 0`. -/
theorem check_of_isPowerOfTwo {a : Nat} (h : a.isPowerOfTwo) :
    a &&& (a - 1) = 0 := by
  obtain ⟨k, rfl⟩ := h
  rw [Nat.and_pow_two_sub_one_eq_mod]
  exact Nat.mod_self _

/-- A positive number passing the check `(alignment & (alignment - 1)) == 0`
is a power of two. -/
theorem isPowerOfTwo_of_check {a : Nat} (ha : 1 ≤ a)
    (h : a &&& (a - 1) = 0) : a.isPowerOfTwo := by
  induction a using Nat.strong_induction_on with
  | _ a ih =>
    have hbit : ∀ i, (a.testBit i && (a - 1).testBit i) = false := by
      intro i
      rw [← Nat.testBit_land, h, Nat.zero_testBit]
    rcases Nat.lt_or_ge a 2 with h2 | h2
    · interval_cases a
      exact Nat.one_isPowerOfTwo
    · rcases Nat.even_or_odd a with ⟨b, hb⟩ | ⟨c, hc⟩
      · have hb2 : a = 2 * b := by omega
        have hbge : 1 ≤ b := by omega
        have hbchk : b &&& (b - 1) = 0 := by
          apply Nat.eq_of_testBit_eq
          intro i
          have := hbit (i + 1)
          rw [Nat.testBit_add_one, Nat.testBit_add_one, hb2] at this
          have hq1 : 2 * b / 2 = b := by omega
          have hq2 : (2 * b - 1) / 2 = b - 1 := by omega
          rw [hq1, hq2] at this
          rw [Nat.testBit_land, Nat.zero_testBit, this]
        obtain ⟨k, hk⟩ := ih b (by omega) hbge hbchk
        exact ⟨k + 1, by rw [hb2, hk, Nat.pow_succ, Nat.mul_comm]⟩
      · have hcge : 1 ≤ c := by omega
        have hzero : c = 0 := by
          apply Nat.eq_of_testBit_eq
          intro i
          have := hbit (i + 1)
          rw [Nat.testBit_add_one, Nat.testBit_add_one, hc] at this
          have hq1 : (2 * c + 1) / 2 = c := by omega
          have hq2 : (2 * c + 1 - 1) / 2 = c := by omega
          rw [hq1, hq2] at this
          simpa using this
        omega

/-- On an alignment passing the check, the code's padded size is the spec's
`roundUp`. -/
theorem getSizePaddedToAlignment_ok {s a : Nat} (h : a &&& (a - 1) = 0) :
    getSizePaddedToAlignment s a = Except.ok (roundUpSpec s a) := by
  unfold getSizePaddedToAlignment roundUpSpec
  rw [if_pos h]
  congr 1
  have hdm := Nat.div_add_mod (s + a - 1) a
  omega

/-- On an alignment failing the check, the code's padded size is the
`invalidAlignment` error. -/
theorem getSizePaddedToAlignment_err {s a : Nat} (h : ¬ a &&& (a - 1) = 0) :
    getSizePaddedToAlignment s a = Except.error LayoutError.invalidAlignment := by
  unfold getSizePaddedToAlignment
  rw [if_neg h]

/-- The spec's `roundUp` yields a multiple of the alignment. -/
theorem roundUpSpec_dvd (s a : Nat) : a ∣ roundUpSpec s a :=
  Dvd.intro _ rfl

/-- For a positive alignment, the spec's `roundUp` is at least the size. -/
theorem le_roundUpSpec {s a : Nat} (ha : 1 ≤ a) : s ≤ roundUpSpec s a := by
  unfold roundUpSpec
  have hdm := Nat.div_add_mod (s + a - 1) a
  have hmlt : (s + a - 1) % a < a := Nat.mod_lt _ (by omega)
  omega

/-- For a positive alignment, the spec's `roundUp` overshoots by less than
the alignment. -/
theorem roundUpSpec_lt {s a : Nat} (ha : 1 ≤ a) : roundUpSpec s a < s + a := by
  unfold roundUpSpec
  have hdm := Nat.div_add_mod (s + a - 1) a
  have hmlt : (s + a - 1) % a < a := Nat.mod_lt _ (by omega)
  omega

/-- The spec's `roundUp` is monotone in the size. -/
theorem roundUpSpec_mono {s s' : Nat} (a : Nat) (h : s ≤ s') :
    roundUpSpec s a ≤ roundUpSpec s' a :=
  Nat.mul_le_mul_left _ (Nat.div_le_div_right (by omega))

/-- Rounding a multiple of the alignment up to the alignment is the
identity. -/
theorem roundUpSpec_eq_self {s a : Nat} (ha : 1 ≤ a) (h : a ∣ s) :
    roundUpSpec s a = s := by
  obtain ⟨m, rfl⟩ := h
  unfold roundUpSpec
  rw [Nat.add_sub_assoc ha, Nat.mul_add_div (by omega)]
  rw [Nat.div_eq_of_lt (by omega), Nat.add_zero]

/-- Rounding zero up to any alignment gives zero. -/
theorem roundUpSpec_zero (a : Nat) : roundUpSpec 0 a = 0 := by
  rcases Nat.eq_zero_or_pos a with rfl | ha
  · rfl
  · unfold roundUpSpec
    rw [Nat.zero_add, Nat.div_eq_of_lt (by omega), Nat.mul_zero]

/-- One accumulation step never shrinks the running total. -/
theorem le_specStep (total : Nat) (c : ChunkDesc) : total ≤ specStep total c := by
  simp only [specStep]
  by_cases h1 : c.reuseFirstChunk = true ∧ total < roundUpSpec c.sizeBytes c.alignment
  · rw [if_pos h1]
    exact Nat.le_of_lt h1.2
  · rw [if_neg h1]
    by_cases h2 : ¬ c.reuseFirstChunk = true
    · rw [if_pos h2]
      exact Nat.le_add_right _ _
    · rw [if_neg h2]

/-- One accumulation step is monotone in the running total. -/
theorem specStep_mono {t t' : Nat} (c : ChunkDesc) (h : t ≤ t') :
    specStep t c ≤ specStep t' c := by
  unfold specStep
  cases hr : c.reuseFirstChunk <;> simp [hr]
  · omega
  · split <;> split <;> omega

/-- The whole accumulation never shrinks the total it starts from. -/
theorem le_foldl_specStep (L : List ChunkDesc) (total : Nat) :
    total ≤ L.foldl specStep total := by
  induction L generalizing total with
  | nil => exact Nat.le_refl _
  | cons c cs ih => exact Nat.le_trans (le_specStep total c) (ih _)

/-- The whole accumulation is monotone in the total it starts from. -/
theorem foldl_specStep_mono {t t' : Nat} (L : List ChunkDesc) (h : t ≤ t') :
    L.foldl specStep t ≤ L.foldl specStep t' := by
  induction L generalizing t t' with
  | nil => exact h
  | cons c cs ih => exact ih (specStep_mono c h)

/-- The spec's `offsetBefore` is monotone in the prefix length. -/
theorem specOffsetBefore_mono (C : List ChunkDesc) {j j' : Nat} (h : j ≤ j') :
    specOffsetBefore C j ≤ specOffsetBefore C j' := by
  unfold specOffsetBefore
  have hsplit : C.take j' = C.take j ++ (C.take j').drop j := by
    conv_lhs => rw [← List.take_append_drop j (C.take j')]
    rw [List.take_take, Nat.min_eq_left h]
  rw [hsplit, List.foldl_append]
  exact le_foldl_specStep _ _

/-- Unfolding the spec's `offsetBefore` at a valid index: `offsetBefore (i+1)`
is one accumulation step past `offsetBefore i`. -/
theorem specOffsetBefore_succ (C : List ChunkDesc) {i : Nat} {ci : ChunkDesc}
    (hci : C[i]? = some ci) :
    specOffsetBefore C (i + 1) = specStep (specOffsetBefore C i) ci := by
  unfold specOffsetBefore
  rw [List.take_succ, hci, List.foldl_append]
  rfl

/-- The loop of `getOffsetBeforeChunk`, run on the two vectors built from a
chunk-descriptor list whose alignments all pass the check, for any in-range
iteration count, succeeds and computes the spec's fold of `specStep`. -/
theorem offsetBeforeAux_eq_spec (C : List ChunkDesc) (j total : Nat)
    (hal : alignsOk C) (hj : j ≤ C.length) :
    offsetBeforeAux (C.map fun c => (c.sizeBytes, c.alignment))
        (C.map fun c => c.reuseFirstChunk) j total
      = Except.ok ((C.take j).foldl specStep total) := by
  induction C generalizing j total with
  | nil =>
    cases j with
    | zero => rfl
    | succ j => exact absurd hj (by simp)
  | cons c cs ih =>
    cases j with
    | zero => rfl
    | succ j =>
      have hpad : getSizePaddedToAlignment c.sizeBytes c.alignment
          = Except.ok (roundUpSpec c.sizeBytes c.alignment) :=
        getSizePaddedToAlignment_ok (hal c (List.mem_cons_self _ _))
      have hal' : alignsOk cs := fun d hd => hal d (List.mem_cons_of_mem _ hd)
      have hj' : j ≤ cs.length := by simpa using hj
      simp only [List.map_cons, offsetBeforeAux, hpad, List.take_succ_cons,
        List.foldl_cons]
      rw [ih _ _ hal' hj']
      rfl

/-- `getOffsetBeforeChunk` on a helper built from chunk descriptors whose
alignments all pass the check computes the spec's `offsetBefore`. -/
theorem getOffsetBeforeChunk_eq_spec (C : List ChunkDesc) (j : Nat)
    (hal : alignsOk C) (hj : j ≤ C.length) :
    getOffsetBeforeChunk (helperOfChunks C) j
      = Except.ok (specOffsetBefore C j) :=
  offsetBeforeAux_eq_spec C j 0 hal hj

/-- `getTotalSize` on a helper built from chunk descriptors whose alignments
all pass the check computes the spec's `offsetBefore` of the whole length. -/
theorem getTotalSize_eq_spec (C : List ChunkDesc) (hal : alignsOk C) :
    getTotalSize (helperOfChunks C)
      = Except.ok (specOffsetBefore C C.length) := by
  unfold getTotalSize
  have hlen : (helperOfChunks C).mNumBytesAndAlignmentPerSmemChunk.length
      = C.length := by simp [helperOfChunks]
  rw [hlen]
  exact getOffsetBeforeChunk_eq_spec C C.length hal (Nat.le_refl _)

/-- Reuse-flag lookup of a helper built from chunk descriptors. -/
theorem helper_reuse_getElem (C : List ChunkDesc) (i : Nat) :
    (helperOfChunks C).mFirstChunkReuse[i]?
      = (C[i]?).map (fun c => c.reuseFirstChunk) := by
  simp [helperOfChunks]

/-- Size-and-alignment lookup of a helper built from chunk descriptors. -/
theorem helper_sizes_getElem (C : List ChunkDesc) (i : Nat) :
    (helperOfChunks C).mNumBytesAndAlignmentPerSmemChunk[i]?
      = (C[i]?).map (fun c => (c.sizeBytes, c.alignment)) := by
  simp [helperOfChunks]

/-- `getChunkOffset` at a valid non-reused index: it succeeds and returns the
spec's `offsetBefore` rounded up to the chunk's own alignment. -/
theorem getChunkOffset_eq_of_not_reused (C : List ChunkDesc) {i : Nat}
    {ci : ChunkDesc} (hal : alignsOk C) (hci : C[i]? = some ci)
    (hr : ci.reuseFirstChunk = false) :
    getChunkOffset (helperOfChunks C) i
      = Except.ok (roundUpSpec (specOffsetBefore C i) ci.alignment) := by
  have hi : i < C.length := by
    rcases List.getElem?_eq_some.mp hci with ⟨h, _⟩
    exact h
  have hmem : ci ∈ C := List.mem_iff_getElem?.mpr ⟨i, hci⟩
  unfold getChunkOffset
  rw [helper_reuse_getElem C i, hci]
  simp only [Option.map_some', hr]
  unfold getChunkOffsetAt
  rw [getOffsetBeforeChunk_eq_spec C i hal (Nat.le_of_lt hi),
    helper_sizes_getElem C i, hci]
  simp only [Option.map_some']
  exact getSizePaddedToAlignment_ok (hal ci hmem)

/-- Within the sequence length, the only error the `getOffsetBeforeChunk`
loop can raise is `invalidAlignment`: it either succeeds or hits the
alignment check. -/
theorem offsetBeforeAux_ok_or_invalid (C : List ChunkDesc) (j total : Nat)
    (hj : j ≤ C.length) :
    (∃ v, offsetBeforeAux (C.map fun c => (c.sizeBytes, c.alignment))
        (C.map fun c => c.reuseFirstChunk) j total = Except.ok v)
    ∨ offsetBeforeAux (C.map fun c => (c.sizeBytes, c.alignment))
        (C.map fun c => c.reuseFirstChunk) j total
      = Except.error LayoutError.invalidAlignment := by
  induction C generalizing j total with
  | nil =>
    cases j with
    | zero => exact Or.inl ⟨total, rfl⟩
    | succ j => exact absurd hj (by simp)
  | cons c cs ih =>
    cases j with
    | zero => exact Or.inl ⟨total, rfl⟩
    | succ j =>
      have hj' : j ≤ cs.length := by simpa using hj
      by_cases hchk : c.alignment &&& (c.alignment - 1) = 0
      · have hpad := getSizePaddedToAlignment_ok (s := c.sizeBytes) hchk
        simp only [List.map_cons, offsetBeforeAux, hpad]
        exact ih _ _ hj'
      · have hpad := getSizePaddedToAlignment_err (s := c.sizeBytes) hchk
        refine Or.inr ?_
        simp only [List.map_cons, offsetBeforeAux, hpad]

/-- A common divisor of the start total and of every alignment in the list
divides the accumulated total. -/
theorem dvd_foldl_specStep {a : Nat} (L : List ChunkDesc) {total : Nat}
    (ht : a ∣ total) (hL : ∀ c ∈ L, a ∣ c.alignment) :
    a ∣ L.foldl specStep total := by
  induction L generalizing total with
  | nil => exact ht
  | cons c cs ih =>
    have hstep : a ∣ specStep total c := by
      have hpad : a ∣ roundUpSpec c.sizeBytes c.alignment :=
        Dvd.dvd.trans (hL c (List.mem_cons_self _ _)) (roundUpSpec_dvd _ _)
      simp only [specStep]
      by_cases h1 : c.reuseFirstChunk = true
          ∧ total < roundUpSpec c.sizeBytes c.alignment
      · rw [if_pos h1]
        exact hpad
      · rw [if_neg h1]
        by_cases h2 : ¬ c.reuseFirstChunk = true
        · rw [if_pos h2]
          exact Nat.dvd_add ht hpad
        · rw [if_neg h2]
          exact ht
    exact ih hstep (fun d hd => hL d (List.mem_cons_of_mem _ hd))

/-- Chunk-wise domination: same alignment and reuse flag, size bounded by the
other's. Used for the zero-size-neutrality comparison. -/
def ChunkLe (c' c : ChunkDesc) : Prop :=
  c'.sizeBytes ≤ c.sizeBytes ∧ c'.alignment = c.alignment
    ∧ c'.reuseFirstChunk = c.reuseFirstChunk

/-- One accumulation step preserves chunk-wise domination of totals. -/
theorem specStep_le_of_chunkLe {c' c : ChunkDesc} {t' t : Nat}
    (hc : ChunkLe c' c) (ht : t' ≤ t) : specStep t' c' ≤ specStep t c := by
  obtain ⟨hs, ha, hr⟩ := hc
  have hpad : roundUpSpec c'.sizeBytes c'.alignment
      ≤ roundUpSpec c.sizeBytes c.alignment := by
    rw [ha]
    exact roundUpSpec_mono _ hs
  simp only [specStep, hr]
  cases hflag : c.reuseFirstChunk
  · simp only [Bool.false_eq_true, false_and, if_false, not_false_iff,
      if_true, ite_false]
    omega
  · simp only [true_and, not_true, ite_false]
    split <;> split <;> omega

/-- The accumulation is monotone under pointwise chunk domination. -/
theorem foldl_specStep_le_of_forall₂ {L' L : List ChunkDesc} {t' t : Nat}
    (hLL : List.Forall₂ ChunkLe L' L) (ht : t' ≤ t) :
    L'.foldl specStep t' ≤ L.foldl specStep t := by
  induction hLL generalizing t' t with
  | nil => exact ht
  | cons hc _ ih => exact ih (specStep_le_of_chunkLe hc ht)

/-- Replaces the `sizeBytes` of the chunk at one index with `0`, keeping its
alignment and reuse flag (the spec's zero-size-neutrality transformation). -/
def zeroSizeAt : List ChunkDesc → Nat → List ChunkDesc
  | [], _ => []
  | c :: cs, 0 => { c with sizeBytes := 0 } :: cs
  | c :: cs, k + 1 => c :: zeroSizeAt cs k

/-- Zeroing one chunk's size dominates the original chunk-wise. -/
theorem zeroSizeAt_forall₂ (C : List ChunkDesc) (k : Nat) :
    List.Forall₂ ChunkLe (zeroSizeAt C k) C := by
  induction C generalizing k with
  | nil => exact List.Forall₂.nil
  | cons c cs ih =>
    cases k with
    | zero =>
      exact List.Forall₂.cons ⟨Nat.zero_le _, rfl, rfl⟩
        (List.forall₂_same.mpr fun d _ => ⟨Nat.le_refl _, rfl, rfl⟩)
    | succ k => exact List.Forall₂.cons ⟨Nat.le_refl _, rfl, rfl⟩ (ih k)

/-- Zeroing one chunk's size changes no lookup except the size at that
index: the element at any index keeps its alignment and reuse flag. -/
theorem zeroSizeAt_getElem (C : List ChunkDesc) (k j : Nat) :
    (zeroSizeAt C k)[j]?
      = (C[j]?).map fun c => if j = k then { c with sizeBytes := 0 } else c := by
  induction C generalizing k j with
  | nil => simp [zeroSizeAt]
  | cons c cs ih =>
    cases k with
    | zero =>
      cases j with
      | zero => simp [zeroSizeAt]
      | succ j => simp [zeroSizeAt, Nat.succ_ne_zero]
    | succ k =>
      cases j with
      | zero => simp [zeroSizeAt]
      | succ j =>
        simp only [zeroSizeAt, List.getElem?_cons_succ, ih k j]
        rcases cs[j]? with _ | d
        · rfl
        · simp only [Option.map_some']
          by_cases hjk : j = k
          · simp [hjk]
          · rw [if_neg hjk, if_neg (by omega)]

/-- `trtllm::gen::ceilDiv(m, n) = (m + n - 1) / n`. -/
def ceilDiv (m n : Nat) : Nat :=
  (m + n - 1) / n

/-- State of `class KernelTraits`: one allocator helper per pool. -/
structure KernelTraits where
  mSmemAllocatorHelper : MemAllocatorHelper
  mTmemAllocatorHelper : MemAllocatorHelper
deriving DecidableEq, Repr

/-- Body of the `GmemC` loop (`for resIdx in 0..2`) of the `KernelTraits`
constructor, producing the SMEM chunk of output buffer `resIdx`.
`dtypeCBits`/`dtypeAccBits` stand for `tg::dtypeGetNumBits` of `dtypeC` and
`dtypeAcc`, `splitKUsesDsmem` for `doesSplitKUseDsmem(splitK)`,
`allReduceTwoShot` for `allReduceAlgo == AllReduceAlgo::TwoShot`; those
helpers live in headers outside this repository snapshot and only their
results reach this code. -/
def gmemCChunk (resIdx dtypeCBits dtypeAccBits epilogueTileM epilogueTileN
    numSlicesForSplitK numSlicesForSliceK : Nat)
    (splitKUsesDsmem useTmaStore allReduceTwoShot useDeepSeekFp8 : Bool) :
    ChunkDesc :=
  let dtypeSmemCBits :=
    if allReduceTwoShot ∨ 1 < numSlicesForSplitK then dtypeAccBits
    else dtypeCBits
  let usesSmemForGmemC := useTmaStore || splitKUsesDsmem
  let extraGmemC0 := if splitKUsesDsmem then numSlicesForSplitK else 1
  let extraGmemC1 :=
    if 1 < numSlicesForSliceK then extraGmemC0 * numSlicesForSliceK
    else extraGmemC0
  let extraGmemC2 :=
    if resIdx ≠ 0 ∧ ¬ useDeepSeekFp8 then 0 else extraGmemC1
  { sizeBytes :=
      if usesSmemForGmemC then
        extraGmemC2 * epilogueTileM * epilogueTileN * dtypeSmemCBits / 8
      else 0
    alignment := 1024
    reuseFirstChunk := splitKUsesDsmem && decide (resIdx = 0) }

/-- The SMEM block of the `KernelTraits` constructor: the seven SMEM chunk
descriptors (LoadA, LoadB, SmemBShuffle, GmemC res 0, GmemC res 1, RowMax,
SliceK) in `emplace_back` order. `dtypeEltBits`, `dtypeCBits`,
`dtypeAccBits` stand for `tg::dtypeGetNumBits` of the three dtype
arguments, `splitKUsesDsmem` for `doesSplitKUseDsmem(splitK)`,
`allReduceTwoShot` for `allReduceAlgo == AllReduceAlgo::TwoShot`;
`tg::Dtype::Fp32` has 32 bits. -/
def smemChunksOf (dtypeEltBits dtypeCBits dtypeAccBits tileM tileN tileK
    epilogueTileM epilogueTileN numStages numSlicesForSplitK
    numSlicesForSliceK : Nat)
    (splitKUsesDsmem useTmaStore transposeMmaOutput allReduceTwoShot
    useDeepSeekFp8 : Bool) : List ChunkDesc :=
  let numSmemBytesLoadA := numStages * tileM * tileK * dtypeEltBits / 8
  let numSmemBytesLoadB := numStages * tileN * tileK * dtypeEltBits / 8
  let numSmemBytesShuffleB :=
    if 1 < numSlicesForSliceK then numStages * tileN * tileK * dtypeEltBits / 8
    else 0
  let numDqSfsCPerCta := if transposeMmaOutput then tileM else tileN
  let numBytesSmemRowMax := (if useDeepSeekFp8 then numDqSfsCPerCta else 0) * 32 / 8
  let tileSizeSliceK :=
    if 1 < numSlicesForSliceK then
      numSlicesForSliceK * tileM * numSlicesForSliceK * tileN
    else 0
  let numBytesSmemTile := tileSizeSliceK * dtypeAccBits / 8
  [ ⟨numSmemBytesLoadA, 1024, false⟩
  , ⟨numSmemBytesLoadB, 1024, false⟩
  , ⟨numSmemBytesShuffleB, 1024, false⟩
  , gmemCChunk 0 dtypeCBits dtypeAccBits epilogueTileM epilogueTileN
      numSlicesForSplitK numSlicesForSliceK splitKUsesDsmem useTmaStore
      allReduceTwoShot useDeepSeekFp8
  , gmemCChunk 1 dtypeCBits dtypeAccBits epilogueTileM epilogueTileN
      numSlicesForSplitK numSlicesForSliceK splitKUsesDsmem useTmaStore
      allReduceTwoShot useDeepSeekFp8
  , ⟨numBytesSmemRowMax, 16, false⟩
  , ⟨numBytesSmemTile, 16, false⟩ ]

/-- The TMEM block of the `KernelTraits` constructor: the four TMEM chunk
descriptors (D, A, SfA, SfB) in `emplace_back` order. `dtypeEltIsBlockFmt`
stands for `tg::dtypeIsBlockFmt(dtypeElt)`; `tg::Dtype::UInt32` has
32 bits. -/
def tmemChunksOf (dtypeEltBits dtypeAccBits tileM tileN tileK numStages
    numStagesMma numSlicesForSliceK : Nat)
    (dtypeEltIsBlockFmt : Bool) : List ChunkDesc :=
  let numTmemColsD := numSlicesForSliceK * tileN * numStagesMma * dtypeAccBits / 32
  let numTmemColsA :=
    if 1 < numSlicesForSliceK then
      numStages * tileK / (numSlicesForSliceK * 32 / dtypeEltBits)
    else 0
  let numTmemColsSfA :=
    if dtypeEltIsBlockFmt then ((tileK / 64) * 2 * ceilDiv tileM 64) * numStages
    else 0
  let numTmemColsSfB :=
    if dtypeEltIsBlockFmt then ((tileK / 64) * 2 * ceilDiv tileN 64) * numStages
    else 0
  [ ⟨numTmemColsD, 2, false⟩
  , ⟨numTmemColsA, 4, false⟩
  , ⟨numTmemColsSfA, 2, false⟩
  , ⟨numTmemColsSfB, 2, false⟩ ]

/-- The `KernelTraits` constructor: builds the SMEM and TMEM descriptor
sequences and wraps each pool in a `MemAllocatorHelper` (the parallel
`emplace_back` sequences are split into the two constructor arguments by
`helperOfChunks`). -/
def mkKernelTraits (dtypeEltBits dtypeCBits dtypeAccBits tileM tileN tileK
    epilogueTileM epilogueTileN numStages numStagesMma numSlicesForSplitK
    numSlicesForSliceK : Nat)
    (splitKUsesDsmem useTmaStore transposeMmaOutput allReduceTwoShot
    useDeepSeekFp8 dtypeEltIsBlockFmt : Bool) : KernelTraits where
  mSmemAllocatorHelper := helperOfChunks (smemChunksOf dtypeEltBits
    dtypeCBits dtypeAccBits tileM tileN tileK epilogueTileM epilogueTileN
    numStages numSlicesForSplitK numSlicesForSliceK splitKUsesDsmem
    useTmaStore transposeMmaOutput allReduceTwoShot useDeepSeekFp8)
  mTmemAllocatorHelper := helperOfChunks (tmemChunksOf dtypeEltBits
    dtypeAccBits tileM tileN tileK numStages numStagesMma
    numSlicesForSliceK dtypeEltIsBlockFmt)

/-- `getSmemBufferSize(traits)`. -/
def getSmemBufferSize (traits : KernelTraits) : Except LayoutError Nat :=
  getTotalSize traits.mSmemAllocatorHelper

/-- `getTmemBufferSize(traits)`. -/
def getTmemBufferSize (traits : KernelTraits) : Except LayoutError Nat :=
  getTotalSize traits.mTmemAllocatorHelper

/-- `getSmemOffsetLoadA(traits)`: SMEM chunk 0. -/
def getSmemOffsetLoadA (traits : KernelTraits) : Except LayoutError Nat :=
  getChunkOffset traits.mSmemAllocatorHelper 0

/-- `getSmemOffsetLoadB(traits)`: SMEM chunk 1. -/
def getSmemOffsetLoadB (traits : KernelTraits) : Except LayoutError Nat :=
  getChunkOffset traits.mSmemAllocatorHelper 1

/-- `getSmemOffsetLoadAb(traits)`: alias of `getSmemOffsetLoadA`. -/
def getSmemOffsetLoadAb (traits : KernelTraits) : Except LayoutError Nat :=
  getSmemOffsetLoadA traits

/-- `getSmemOffsetLoadShuffleB(traits)`: SMEM chunk 2. -/
def getSmemOffsetLoadShuffleB (traits : KernelTraits) : Except LayoutError Nat :=
  getChunkOffset traits.mSmemAllocatorHelper 2

/-- `getSmemOffsetGmemC(traits, resIdx)`: SMEM chunk `3 + resIdx`. -/
def getSmemOffsetGmemC (traits : KernelTraits) (resIdx : Nat) :
    Except LayoutError Nat :=
  getChunkOffset traits.mSmemAllocatorHelper (3 + resIdx)

/-- `getSmemOffsetRowMax(traits)`: SMEM chunk 5. -/
def getSmemOffsetRowMax (traits : KernelTraits) : Except LayoutError Nat :=
  getChunkOffset traits.mSmemAllocatorHelper 5

/-- `getSmemOffsetSliceK(traits)`: SMEM chunk 6. -/
def getSmemOffsetSliceK (traits : KernelTraits) : Except LayoutError Nat :=
  getChunkOffset traits.mSmemAllocatorHelper 6

/-- `getTmemOffsetD(traits)`: TMEM chunk 0. -/
def getTmemOffsetD (traits : KernelTraits) : Except LayoutError Nat :=
  getChunkOffset traits.mTmemAllocatorHelper 0

/-- `getTmemOffsetA(traits)`: TMEM chunk 1. -/
def getTmemOffsetA (traits : KernelTraits) : Except LayoutError Nat :=
  getChunkOffset traits.mTmemAllocatorHelper 1

/-- `getTmemOffsetSfA(traits)`: TMEM chunk 2. -/
def getTmemOffsetSfA (traits : KernelTraits) : Except LayoutError Nat :=
  getChunkOffset traits.mTmemAllocatorHelper 2

/-- `getTmemOffsetSfB(traits)`: TMEM chunk 3. -/
def getTmemOffsetSfB (traits : KernelTraits) : Except LayoutError Nat :=
  getChunkOffset traits.mTmemAllocatorHelper 3

/-- `getChunkOffset` at a valid reused index, when chunk 0 is not reused:
it succeeds and returns offset 0 (the offset of chunk 0). -/
theorem getChunkOffset_eq_of_reused (C : List ChunkDesc) {i : Nat}
    {ci c0 : ChunkDesc} (hal : alignsOk C) (hci : C[i]? = some ci)
    (hr : ci.reuseFirstChunk = true) (hc0 : C[0]? = some c0)
    (h0 : c0.reuseFirstChunk = false) :
    getChunkOffset (helperOfChunks C) i = Except.ok 0 := by
  have hoff0 : getChunkOffset (helperOfChunks C) 0
      = Except.ok (roundUpSpec (specOffsetBefore C 0) c0.alignment) :=
    getChunkOffset_eq_of_not_reused C hal hc0 h0
  have hzero : specOffsetBefore C 0 = 0 := rfl
  rw [hzero, roundUpSpec_zero] at hoff0
  unfold getChunkOffset at hoff0 ⊢
  rw [helper_reuse_getElem C i, hci]
  rw [helper_reuse_getElem C 0, hc0] at hoff0 ⊢
  simp only [Option.map_some', hr, h0] at hoff0 ⊢
  exact hoff0

/-- With alignments passing the check and chunk 0 not reused, the offset
query of any valid chunk succeeds (in particular the reuse delegation to
chunk 0 stops after one step). -/
theorem getChunkOffset_isOk (C : List ChunkDesc) (i : Nat) (ci : ChunkDesc)
    (halOk : alignsOk C) (hci : C[i]? = some ci)
    (h0 : ∀ c0, C[0]? = some c0 → c0.reuseFirstChunk = false) :
    ∃ v, getChunkOffset (helperOfChunks C) i = Except.ok v := by
  cases hr : ci.reuseFirstChunk with
  | false => exact ⟨_, getChunkOffset_eq_of_not_reused C halOk hci hr⟩
  | true =>
    have hi : i < C.length := by
      rcases List.getElem?_eq_some.mp hci with ⟨h, _⟩
      exact h
    rcases hEq : C[0]? with _ | c0
    · rw [List.getElem?_eq_none_iff] at hEq
      omega
    · exact ⟨0, getChunkOffset_eq_of_reused C halOk hci hr hEq (h0 _ hEq)⟩

/-- Every index below the pool's length gets an offset, given checked
alignments and a non-reused chunk 0. -/
theorem pool_chunkOffsets_ok (C : List ChunkDesc) (n : Nat)
    (halOk : alignsOk C)
    (h0 : ∀ c0, C[0]? = some c0 → c0.reuseFirstChunk = false)
    (hn : C.length = n) :
    ∀ i, i < n → ∃ v, getChunkOffset (helperOfChunks C) i = Except.ok v := by
  intro i hi
  rcases hEq : C[i]? with _ | ci
  · rw [List.getElem?_eq_none_iff] at hEq
    omega
  · exact getChunkOffset_isOk C i ci halOk hEq h0

/-!
Claim theorems. `scenario1` is the spec's concrete scenario 1.
-/

/-- Chunk sequence of the spec's concrete scenario 1:
`[{100,16,false},{50,16,false}]`. -/
def scenario1 : List ChunkDesc :=
  [⟨100, 16, false⟩, ⟨50, 16, false⟩]

/-- C2, counterexample: on scenario 1 the code's `getTotalSize` does not
return 128 as the claim states (it returns 176: the loop adds each chunk's
size rounded up to its own alignment, `112 + 64`). -/
theorem claim_C2_counterexample :
    getTotalSize (helperOfChunks scenario1) ≠ Except.ok 128 := by
  intro h
  have h2 : (176 : Nat) = 128 := Except.ok.inj h
  exact absurd h2 (by decide)

/-- C2, amended: for the two-chunk sequence with descriptors
`(100, 16, false)` and `(50, 16, false)`, `chunkOffset(0) = 0`,
`chunkOffset(1) = 112`, and `totalSize() = 176` (the padded sizes
`112 + 64`, not 128). -/
theorem claim_C2_amended :
    getChunkOffset (helperOfChunks scenario1) 0 = Except.ok 0
    ∧ getChunkOffset (helperOfChunks scenario1) 1 = Except.ok 112
    ∧ getTotalSize (helperOfChunks scenario1) = Except.ok 176 :=
  ⟨rfl, rfl, rfl⟩

/-- C3, counterexample: alignment 0 is not a power of two, yet the check
`(alignment & (alignment - 1)) == 0` accepts it (`0 & (0 - 1) = 0`) and a
padded size is computed (here `getSizePaddedToAlignment(10, 0) = 0`), so
computing a padded size with a non-power-of-two alignment does not always
fail with `InvalidAlignment`. -/
theorem claim_C3_counterexample :
    getSizePaddedToAlignment 10 0 = Except.ok 0
    ∧ ¬ (0 : Nat).isPowerOfTwo := by
  refine ⟨rfl, ?_⟩
  rintro ⟨k, hk⟩
  have := Nat.two_pow_pos k
  omega

/-- C3, amended: restricted to alignments ≥ 1, computing a padded size
fails with `InvalidAlignment` if and only if the alignment is not a power
of two; and for every valid non-reused chunk with such an alignment,
`getChunkOffset` raises `InvalidAlignment` rather than returning an offset.
(Alignment 0 also passes the check and yields 0; and a reused chunk's own
alignment is never consulted by `getChunkOffset`, which delegates to
chunk 0 — hence the two restrictions.) -/
theorem claim_C3_amended :
    (∀ size alignment : Nat, 1 ≤ alignment →
      (getSizePaddedToAlignment size alignment
          = Except.error LayoutError.invalidAlignment
        ↔ ¬ alignment.isPowerOfTwo))
    ∧ (∀ (C : List ChunkDesc) (i : Nat) (ci : ChunkDesc), C[i]? = some ci →
        ci.reuseFirstChunk = false → 1 ≤ ci.alignment →
        ¬ ci.alignment.isPowerOfTwo →
        getChunkOffset (helperOfChunks C) i
          = Except.error LayoutError.invalidAlignment) := by
  constructor
  · intro s a ha
    constructor
    · intro herr hpow
      rw [getSizePaddedToAlignment_ok (check_of_isPowerOfTwo hpow)] at herr
      exact Except.noConfusion herr
    · intro hnpow
      by_cases hchk : a &&& (a - 1) = 0
      · exact absurd (isPowerOfTwo_of_check ha hchk) hnpow
      · exact getSizePaddedToAlignment_err hchk
  · intro C i ci hci hr ha hnpow
    have hi : i < C.length := by
      rcases List.getElem?_eq_some.mp hci with ⟨h, _⟩
      exact h
    unfold getChunkOffset
    rw [helper_reuse_getElem C i, hci]
    simp only [Option.map_some', hr]
    unfold getChunkOffsetAt
    have hchk : ¬ ci.alignment &&& (ci.alignment - 1) = 0 :=
      fun hchk => hnpow (isPowerOfTwo_of_check ha hchk)
    rcases offsetBeforeAux_ok_or_invalid C i 0 (Nat.le_of_lt hi) with ⟨v, hv⟩ | herr
    · rw [show getOffsetBeforeChunk (helperOfChunks C) i = Except.ok v from hv]
      rw [helper_sizes_getElem C i, hci]
      simp only [Option.map_some']
      exact getSizePaddedToAlignment_err hchk
    · rw [show getOffsetBeforeChunk (helperOfChunks C) i
          = Except.error LayoutError.invalidAlignment from herr]

/-- C4, evaluation at the failing inputs: querying `chunkOffset` outside
`[0, n)` — index 0 of the zero-length sequence, or index 5 of the
two-chunk scenario 1 — reaches the unchecked `mFirstChunkReuse[ii]`
access. The source raises no `IndexOutOfRange` error there (its only check,
`TLLM_CHECK_ERROR`, guards alignment): the access is undefined behaviour,
which the embedding marks `undefinedBehavior` instead of producing the
fatal error the spec prescribes. -/
theorem claim_C4 :
    getChunkOffset (helperOfChunks []) 0
        = Except.error LayoutError.undefinedBehavior
    ∧ getChunkOffset (helperOfChunks scenario1) 5
        = Except.error LayoutError.undefinedBehavior :=
  ⟨rfl, rfl⟩

/-- C5: with power-of-two alignments and chunk 0 not reused, the offset of
every valid chunk (reused or not) is returned and is a multiple of that
chunk's own alignment. -/
theorem claim_C5 (C : List ChunkDesc) (i : Nat) (ci : ChunkDesc)
    (hal : ∀ c ∈ C, c.alignment.isPowerOfTwo)
    (h0 : ∀ c0, C[0]? = some c0 → c0.reuseFirstChunk = false)
    (hci : C[i]? = some ci) :
    ∃ o, getChunkOffset (helperOfChunks C) i = Except.ok o
      ∧ o % ci.alignment = 0 := by
  have halOk : alignsOk C := fun c hc => check_of_isPowerOfTwo (hal c hc)
  have hi : i < C.length := by
    rcases List.getElem?_eq_some.mp hci with ⟨h, _⟩
    exact h
  cases hr : ci.reuseFirstChunk with
  | false =>
    refine ⟨roundUpSpec (specOffsetBefore C i) ci.alignment,
      getChunkOffset_eq_of_not_reused C halOk hci hr, ?_⟩
    rcases roundUpSpec_dvd (specOffsetBefore C i) ci.alignment with ⟨m, hm⟩
    rw [hm]
    exact Nat.mul_mod_right _ _
  | true =>
    have h0lt : 0 < C.length := Nat.lt_of_le_of_lt (Nat.zero_le i) hi
    have hc0 : C[0]? = some C[0] := List.getElem?_eq_getElem h0lt
    exact ⟨0, getChunkOffset_eq_of_reused C halOk hci hr hc0 (h0 _ hc0),
      Nat.zero_mod _⟩

/-- Witness for C5 at scenario 1, chunk 1. -/
theorem claim_C5_witness :
    ∃ o, getChunkOffset (helperOfChunks scenario1) 1 = Except.ok o
      ∧ o % (16 : Nat) = 0 :=
  claim_C5 scenario1 1 ⟨50, 16, false⟩
    (by
      intro c hc
      simp only [scenario1, List.mem_cons, List.not_mem_nil, or_false] at hc
      rcases hc with rfl | rfl
      · exact ⟨4, rfl⟩
      · exact ⟨4, rfl⟩)
    (by
      intro c0 hc0
      simp only [scenario1] at hc0
      cases hc0
      rfl)
    rfl

/-- C6: with power-of-two alignments, `getOffsetBeforeChunk(j)` for every
`j` in `[0, n]` equals the spec's fold (stretch to the padded size on a
larger reused chunk, add it on a non-reused chunk, else leave the total),
and `getTotalSize()` equals `offsetBefore(n)`. -/
theorem claim_C6 (C : List ChunkDesc) (j : Nat)
    (hal : ∀ c ∈ C, c.alignment.isPowerOfTwo) (hj : j ≤ C.length) :
    getOffsetBeforeChunk (helperOfChunks C) j
        = Except.ok (specOffsetBefore C j)
    ∧ getTotalSize (helperOfChunks C)
        = Except.ok (specOffsetBefore C C.length) := by
  have halOk : alignsOk C := fun c hc => check_of_isPowerOfTwo (hal c hc)
  exact ⟨getOffsetBeforeChunk_eq_spec C j halOk hj, getTotalSize_eq_spec C halOk⟩

/-- Witness for C6 at scenario 1, prefix length 1. -/
theorem claim_C6_witness :
    getOffsetBeforeChunk (helperOfChunks scenario1) 1
        = Except.ok (specOffsetBefore scenario1 1)
    ∧ getTotalSize (helperOfChunks scenario1)
        = Except.ok (specOffsetBefore scenario1 scenario1.length) :=
  claim_C6 scenario1 1
    (by
      intro c hc
      simp only [scenario1, List.mem_cons, List.not_mem_nil, or_false] at hc
      rcases hc with rfl | rfl
      · exact ⟨4, rfl⟩
      · exact ⟨4, rfl⟩)
    (by decide)

/-- C7: when chunk 0 is not marked reused and alignments are powers of two,
the offset of every chunk marked `reuseFirstChunk` is exactly
`chunkOffset(0)` (the code's recursive delegation to chunk 0). -/
theorem claim_C7 (C : List ChunkDesc) (i : Nat) (ci c0 : ChunkDesc)
    (_hal : ∀ c ∈ C, c.alignment.isPowerOfTwo)
    (hci : C[i]? = some ci) (hri : ci.reuseFirstChunk = true)
    (hc0 : C[0]? = some c0) (h0 : c0.reuseFirstChunk = false) :
    getChunkOffset (helperOfChunks C) i
      = getChunkOffset (helperOfChunks C) 0 := by
  unfold getChunkOffset
  rw [helper_reuse_getElem C i, hci, helper_reuse_getElem C 0, hc0]
  simp only [Option.map_some', hri, h0]

/-- Witness for C7: a two-chunk sequence whose second chunk is reused. -/
theorem claim_C7_witness :
    getChunkOffset (helperOfChunks [⟨4, 4, false⟩, ⟨8, 4, true⟩]) 1
      = getChunkOffset (helperOfChunks [⟨4, 4, false⟩, ⟨8, 4, true⟩]) 0 :=
  claim_C7 [⟨4, 4, false⟩, ⟨8, 4, true⟩] 1 ⟨8, 4, true⟩ ⟨4, 4, false⟩
    (by
      intro c hc
      simp only [List.mem_cons, List.not_mem_nil, or_false] at hc
      rcases hc with rfl | rfl
      · exact ⟨2, rfl⟩
      · exact ⟨2, rfl⟩)
    rfl rfl rfl rfl

/-- C8: with power-of-two alignments, `totalSize()` of the whole sequence
is at least `totalSize()` of every prefix; equivalently, the value of
`offsetBefore(j)` is monotonically non-decreasing in `j`. -/
theorem claim_C8 (C : List ChunkDesc) (m : Nat)
    (hal : ∀ c ∈ C, c.alignment.isPowerOfTwo) (hm : m ≤ C.length) :
    (∃ t tp, getTotalSize (helperOfChunks C) = Except.ok t
      ∧ getTotalSize (helperOfChunks (C.take m)) = Except.ok tp
      ∧ tp ≤ t)
    ∧ (∀ j1 j2 v1 v2, j1 ≤ j2 → j2 ≤ C.length →
        getOffsetBeforeChunk (helperOfChunks C) j1 = Except.ok v1 →
        getOffsetBeforeChunk (helperOfChunks C) j2 = Except.ok v2 →
        v1 ≤ v2) := by
  have halOk : alignsOk C := fun c hc => check_of_isPowerOfTwo (hal c hc)
  have halOkTake : alignsOk (C.take m) :=
    fun c hc => halOk c (List.take_subset m C hc)
  constructor
  · refine ⟨specOffsetBefore C C.length,
      specOffsetBefore (C.take m) (C.take m).length,
      getTotalSize_eq_spec C halOk, getTotalSize_eq_spec (C.take m) halOkTake, ?_⟩
    have hlen : (C.take m).length = m := by
      rw [List.length_take]
      exact Nat.min_eq_left hm
    have htt : specOffsetBefore (C.take m) (C.take m).length
        = specOffsetBefore C m := by
      unfold specOffsetBefore
      rw [hlen, List.take_take, Nat.min_self]
    rw [htt]
    exact specOffsetBefore_mono C hm
  · intro j1 j2 v1 v2 hj12 hj2 hv1 hv2
    rw [getOffsetBeforeChunk_eq_spec C j1 halOk (Nat.le_trans hj12 hj2)] at hv1
    rw [getOffsetBeforeChunk_eq_spec C j2 halOk hj2] at hv2
    have e1 : specOffsetBefore C j1 = v1 := Except.ok.inj hv1
    have e2 : specOffsetBefore C j2 = v2 := Except.ok.inj hv2
    rw [← e1, ← e2]
    exact specOffsetBefore_mono C hj12

/-- Witness for C8 at scenario 1, prefix length 1. -/
theorem claim_C8_witness :
    (∃ t tp, getTotalSize (helperOfChunks scenario1) = Except.ok t
      ∧ getTotalSize (helperOfChunks (scenario1.take 1)) = Except.ok tp
      ∧ tp ≤ t)
    ∧ (∀ j1 j2 v1 v2, j1 ≤ j2 → j2 ≤ scenario1.length →
        getOffsetBeforeChunk (helperOfChunks scenario1) j1 = Except.ok v1 →
        getOffsetBeforeChunk (helperOfChunks scenario1) j2 = Except.ok v2 →
        v1 ≤ v2) :=
  claim_C8 scenario1 1
    (by
      intro c hc
      simp only [scenario1, List.mem_cons, List.not_mem_nil, or_false] at hc
      rcases hc with rfl | rfl
      · exact ⟨4, rfl⟩
      · exact ⟨4, rfl⟩)
    (by decide)

/-- Pointwise chunk domination restricts to equal-length prefixes. -/
theorem forall₂_chunkLe_take {L' L : List ChunkDesc}
    (h : List.Forall₂ ChunkLe L' L) (n : Nat) :
    List.Forall₂ ChunkLe (L'.take n) (L.take n) := by
  induction h generalizing n with
  | nil => simp [List.Forall₂.nil]
  | cons hc _ ih =>
    cases n with
    | zero => simp [List.Forall₂.nil]
    | succ n =>
      simp only [List.take_succ_cons]
      exact List.Forall₂.cons hc (ih n)

/-- C9: with power-of-two alignments and chunk 0 not reused, replacing any
one chunk's `sizeBytes` with 0 (keeping its alignment and reuse flag) never
increases the offset of any other chunk. -/
theorem claim_C9 (C : List ChunkDesc) (k j : Nat) (cj : ChunkDesc)
    (hal : ∀ c ∈ C, c.alignment.isPowerOfTwo)
    (h0 : ∀ c0, C[0]? = some c0 → c0.reuseFirstChunk = false)
    (_hk : k < C.length) (hcj : C[j]? = some cj) (hjk : j ≠ k) :
    ∃ o o', getChunkOffset (helperOfChunks C) j = Except.ok o
      ∧ getChunkOffset (helperOfChunks (zeroSizeAt C k)) j = Except.ok o'
      ∧ o' ≤ o := by
  have halOk : alignsOk C := fun c hc => check_of_isPowerOfTwo (hal c hc)
  have hj : j < C.length := by
    rcases List.getElem?_eq_some.mp hcj with ⟨h, _⟩
    exact h
  have halOk' : alignsOk (zeroSizeAt C k) := by
    intro c' hc'
    rcases List.mem_iff_getElem?.mp hc' with ⟨idx, hidx⟩
    rw [zeroSizeAt_getElem] at hidx
    rcases hEq : C[idx]? with _ | c
    · rw [hEq] at hidx
      exact Option.noConfusion hidx
    · rw [hEq] at hidx
      simp only [Option.map_some'] at hidx
      have hmem : c ∈ C := List.mem_iff_getElem?.mpr ⟨idx, hEq⟩
      have hcal : c'.alignment = c.alignment := by
        rcases Option.some.inj hidx with rfl
        by_cases hik : idx = k
        · rw [if_pos hik]
        · rw [if_neg hik]
      rw [hcal]
      exact halOk c hmem
  have hcj' : (zeroSizeAt C k)[j]? = some cj := by
    rw [zeroSizeAt_getElem, hcj]
    simp [hjk]
  have h0' : ∀ c0, (zeroSizeAt C k)[0]? = some c0 → c0.reuseFirstChunk = false := by
    intro c0' hc0'
    rw [zeroSizeAt_getElem] at hc0'
    rcases hEq : C[0]? with _ | c0
    · rw [hEq] at hc0'
      exact Option.noConfusion hc0'
    · rw [hEq] at hc0'
      simp only [Option.map_some'] at hc0'
      rcases Option.some.inj hc0' with rfl
      have hre := h0 c0 hEq
      by_cases h0k : 0 = k
      · rw [if_pos h0k]
        exact hre
      · rw [if_neg h0k]
        exact hre
  cases hr : cj.reuseFirstChunk with
  | true =>
    have hc0 : C[0]? = some C[0] :=
      List.getElem?_eq_getElem (Nat.lt_of_le_of_lt (Nat.zero_le j) hj)
    obtain ⟨c0', hc0'⟩ : ∃ c0', (zeroSizeAt C k)[0]? = some c0' := by
      rw [zeroSizeAt_getElem, hc0]
      exact ⟨_, rfl⟩
    exact ⟨0, 0, getChunkOffset_eq_of_reused C halOk hcj hr hc0 (h0 _ hc0),
      getChunkOffset_eq_of_reused (zeroSizeAt C k) halOk' hcj' hr hc0'
        (h0' _ hc0'), Nat.le_refl 0⟩
  | false =>
    refine ⟨roundUpSpec (specOffsetBefore C j) cj.alignment,
      roundUpSpec (specOffsetBefore (zeroSizeAt C k) j) cj.alignment,
      getChunkOffset_eq_of_not_reused C halOk hcj hr,
      getChunkOffset_eq_of_not_reused (zeroSizeAt C k) halOk' hcj' hr, ?_⟩
    apply roundUpSpec_mono
    exact foldl_specStep_le_of_forall₂
      (forall₂_chunkLe_take (zeroSizeAt_forall₂ C k) j) (Nat.le_refl 0)

/-- The divisibility restriction in the amended no-overlap statement is
real for this repository: the TMEM pool's alignments (2, 4, 2, 2) violate
it, and at a realizable configuration (element type of 8 bits in block
format, `Fp32` accumulator, `tileM = tileN = 1`, `tileK = 64`, one stage,
two slice-K slices) the constructor's own TMEM pool aliases the non-reused
chunks A and SfA: A occupies `[4, 12)` while SfA occupies `[10, 12)`. -/
theorem tmemPool_overlap_example :
    getTmemOffsetA (mkKernelTraits 8 8 32 1 1 64 1 1 1 1 1 2 false false
        false false false true) = Except.ok 4
    ∧ getSizePaddedToAlignment 8 4 = Except.ok 8
    ∧ getTmemOffsetSfA (mkKernelTraits 8 8 32 1 1 64 1 1 1 1 1 2 false
        false false false false true) = Except.ok 10
    ∧ getSizePaddedToAlignment 2 2 = Except.ok 2
    ∧ ∃ x, (4 ≤ x ∧ x < 4 + 8) ∧ (10 ≤ x ∧ x < 10 + 2) :=
  ⟨rfl, rfl, rfl, rfl, 10, by omega, by omega⟩

/-- One accumulation step at a non-reused chunk adds its padded size. -/
theorem specStep_not_reused {c : ChunkDesc} (t : Nat)
    (hr : c.reuseFirstChunk = false) :
    specStep t c = t + roundUpSpec c.sizeBytes c.alignment := by
  simp [specStep, hr]

/-- C1, counterexample: in the sequence
`[(1,1,false), (16,16,false), (1,1,false)]` — power-of-two alignments,
no chunk reused — chunk 1 occupies `[16, 32)` (its offset is rounded up
to 16 but `offsetBefore` does not account for that rounding gap) while
chunk 2 occupies `[17, 18)`: byte 17 lies in both half-open ranges, so the
ranges of two non-reused chunks intersect. -/
theorem claim_C1_counterexample :
    getChunkOffset (helperOfChunks [⟨1, 1, false⟩, ⟨16, 16, false⟩,
        ⟨1, 1, false⟩]) 1 = Except.ok 16
    ∧ getSizePaddedToAlignment 16 16 = Except.ok 16
    ∧ getChunkOffset (helperOfChunks [⟨1, 1, false⟩, ⟨16, 16, false⟩,
        ⟨1, 1, false⟩]) 2 = Except.ok 17
    ∧ getSizePaddedToAlignment 1 1 = Except.ok 1
    ∧ ∃ x, (16 ≤ x ∧ x < 16 + 16) ∧ (17 ≤ x ∧ x < 17 + 1) :=
  ⟨rfl, rfl, rfl, rfl, 17, by omega, by omega⟩

/-- C1, amended: with power-of-two alignments, chunk 0 not reused, and —
additionally, which the counterexample shows is needed — each chunk's
alignment dividing every earlier chunk's alignment, the half-open byte
ranges of two distinct chunks neither of which is marked reused do not
intersect. The added hypothesis holds for the SMEM pool `KernelTraits`
builds (alignments 1024, 1024, 1024, 1024, 1024, 16, 16) but not for its
TMEM pool (alignments 2, 4, 2, 2, where 4 does not divide 2): there the
unrestricted no-overlap statement can really fail, as
`tmemPool_overlap_example` evaluates. (The original claim's
alternative case of a reused chunk `j` whose padded size fits in the
reserved total must also be dropped: a reused chunk is placed at offset 0
and by design aliases the start of the arena.) -/
theorem claim_C1_amended (C : List ChunkDesc) (i j x : Nat)
    (ci cj : ChunkDesc) (oi oj pi pj : Nat)
    (hal : ∀ c ∈ C, c.alignment.isPowerOfTwo)
    (hchain : ∀ (k l : Nat) (ck cl : ChunkDesc), k ≤ l → C[k]? = some ck →
      C[l]? = some cl → cl.alignment ∣ ck.alignment)
    (_h0 : ∀ c0, C[0]? = some c0 → c0.reuseFirstChunk = false)
    (hij : i < j)
    (hci : C[i]? = some ci) (hcj : C[j]? = some cj)
    (hri : ci.reuseFirstChunk = false) (hrj : cj.reuseFirstChunk = false)
    (hoi : getChunkOffset (helperOfChunks C) i = Except.ok oi)
    (hoj : getChunkOffset (helperOfChunks C) j = Except.ok oj)
    (hpi : getSizePaddedToAlignment ci.sizeBytes ci.alignment = Except.ok pi)
    (_hpj : getSizePaddedToAlignment cj.sizeBytes cj.alignment
      = Except.ok pj) :
    ¬ (oi ≤ x ∧ x < oi + pi ∧ oj ≤ x ∧ x < oj + pj) := by
  have halOk : alignsOk C := fun c hc => check_of_isPowerOfTwo (hal c hc)
  have hmemi : ci ∈ C := List.mem_iff_getElem?.mpr ⟨i, hci⟩
  have hmemj : cj ∈ C := List.mem_iff_getElem?.mpr ⟨j, hcj⟩
  have hposi : 1 ≤ ci.alignment := Nat.pos_of_isPowerOfTwo (hal ci hmemi)
  have hposj : 1 ≤ cj.alignment := Nat.pos_of_isPowerOfTwo (hal cj hmemj)
  -- identify the returned offsets and padded sizes
  have hoi' : oi = roundUpSpec (specOffsetBefore C i) ci.alignment := by
    rw [getChunkOffset_eq_of_not_reused C halOk hci hri] at hoi
    exact (Except.ok.inj hoi).symm
  have hoj' : oj = roundUpSpec (specOffsetBefore C j) cj.alignment := by
    rw [getChunkOffset_eq_of_not_reused C halOk hcj hrj] at hoj
    exact (Except.ok.inj hoj).symm
  have hpi' : pi = roundUpSpec ci.sizeBytes ci.alignment := by
    rw [getSizePaddedToAlignment_ok (halOk ci hmemi)] at hpi
    exact (Except.ok.inj hpi).symm
  -- chunk i's alignment divides everything accumulated before chunk i
  have hdvd : ci.alignment ∣ specOffsetBefore C i := by
    apply dvd_foldl_specStep _ (Nat.dvd_zero _)
    intro c hc
    rcases List.mem_iff_getElem?.mp hc with ⟨k, hkc⟩
    have hk : k < (C.take i).length := by
      rcases List.getElem?_eq_some.mp hkc with ⟨h, _⟩
      exact h
    have hki : k < i := by
      rw [List.length_take] at hk
      omega
    rw [List.getElem?_take_of_lt hki] at hkc
    exact hchain k i c ci (Nat.le_of_lt hki) hkc hci
  -- so chunk i starts exactly at offsetBefore(i)
  have hoieq : oi = specOffsetBefore C i := by
    rw [hoi']
    exact roundUpSpec_eq_self hposi hdvd
  -- chunk i's range ends at offsetBefore(i+1)
  have hsucc : specOffsetBefore C (i + 1) = oi + pi := by
    rw [specOffsetBefore_succ C hci, specStep_not_reused _ hri, hoieq, hpi']
  -- which is at most offsetBefore(j), which is at most chunk j's offset
  have hmono : specOffsetBefore C (i + 1) ≤ specOffsetBefore C j :=
    specOffsetBefore_mono C hij
  have hjlb : specOffsetBefore C j ≤ oj := by
    rw [hoj']
    exact le_roundUpSpec hposj
  intro hx
  omega

/-- Witness for C1 at a two-chunk sequence, byte 10. -/
theorem claim_C1_witness :
    ¬ ((0 : Nat) ≤ 10 ∧ (10 : Nat) < 0 + 16 ∧ (16 : Nat) ≤ 10
      ∧ (10 : Nat) < 16 + 16) :=
  claim_C1_amended [⟨16, 16, false⟩, ⟨16, 16, false⟩] 0 1 10
    ⟨16, 16, false⟩ ⟨16, 16, false⟩ 0 16 16 16
    (by
      intro c hc
      simp only [List.mem_cons, List.not_mem_nil, or_false] at hc
      rcases hc with rfl | rfl
      · exact ⟨4, rfl⟩
      · exact ⟨4, rfl⟩)
    (by
      intro k l ck cl hkl hck hcl
      have hk2 : k < 2 := by
        rcases List.getElem?_eq_some.mp hck with ⟨h, _⟩
        simpa using h
      have hl2 : l < 2 := by
        rcases List.getElem?_eq_some.mp hcl with ⟨h, _⟩
        simpa using h
      interval_cases k <;> interval_cases l <;>
        (cases hck; cases hcl; decide))
    (by
      intro c0 hc0
      cases hc0
      rfl)
    (by decide) rfl rfl rfl rfl rfl rfl rfl rfl

/-- Witness for C9 at scenario 1, zeroing chunk 0, observing chunk 1. -/
theorem claim_C9_witness :
    ∃ o o', getChunkOffset (helperOfChunks scenario1) 1 = Except.ok o
      ∧ getChunkOffset (helperOfChunks (zeroSizeAt scenario1 0)) 1
          = Except.ok o'
      ∧ o' ≤ o :=
  claim_C9 scenario1 0 1 ⟨50, 16, false⟩
    (by
      intro c hc
      simp only [scenario1, List.mem_cons, List.not_mem_nil, or_false] at hc
      rcases hc with rfl | rfl
      · exact ⟨4, rfl⟩
      · exact ⟨4, rfl⟩)
    (by
      intro c0 hc0
      simp only [scenario1] at hc0
      cases hc0
      rfl)
    (by decide) rfl (by decide)

/-- The SMEM pool's alignments (1024 five times, then 16 twice) all pass
the power-of-two check, whatever the configuration. -/
theorem smemChunksOf_alignsOk (dtypeEltBits dtypeCBits dtypeAccBits tileM
    tileN tileK epilogueTileM epilogueTileN numStages numSlicesForSplitK
    numSlicesForSliceK : Nat)
    (splitKUsesDsmem useTmaStore transposeMmaOutput allReduceTwoShot
    useDeepSeekFp8 : Bool) :
    alignsOk (smemChunksOf dtypeEltBits dtypeCBits dtypeAccBits tileM tileN
      tileK epilogueTileM epilogueTileN numStages numSlicesForSplitK
      numSlicesForSliceK splitKUsesDsmem useTmaStore transposeMmaOutput
      allReduceTwoShot useDeepSeekFp8) := by
  intro c hc
  simp only [smemChunksOf, List.mem_cons, List.not_mem_nil, or_false] at hc
  rcases hc with rfl | rfl | rfl | rfl | rfl | rfl | rfl
  · exact (by decide : (1024 : Nat) &&& (1024 - 1) = 0)
  · exact (by decide : (1024 : Nat) &&& (1024 - 1) = 0)
  · exact (by decide : (1024 : Nat) &&& (1024 - 1) = 0)
  · exact (by decide : (1024 : Nat) &&& (1024 - 1) = 0)
  · exact (by decide : (1024 : Nat) &&& (1024 - 1) = 0)
  · exact (by decide : (16 : Nat) &&& (16 - 1) = 0)
  · exact (by decide : (16 : Nat) &&& (16 - 1) = 0)

/-- The TMEM pool's alignments (2, 4, 2, 2) all pass the power-of-two
check, whatever the configuration. -/
theorem tmemChunksOf_alignsOk (dtypeEltBits dtypeAccBits tileM tileN tileK
    numStages numStagesMma numSlicesForSliceK : Nat)
    (dtypeEltIsBlockFmt : Bool) :
    alignsOk (tmemChunksOf dtypeEltBits dtypeAccBits tileM tileN tileK
      numStages numStagesMma numSlicesForSliceK dtypeEltIsBlockFmt) := by
  intro c hc
  simp only [tmemChunksOf, List.mem_cons, List.not_mem_nil, or_false] at hc
  rcases hc with rfl | rfl | rfl | rfl
  · exact (by decide : (2 : Nat) &&& (2 - 1) = 0)
  · exact (by decide : (4 : Nat) &&& (4 - 1) = 0)
  · exact (by decide : (2 : Nat) &&& (2 - 1) = 0)
  · exact (by decide : (2 : Nat) &&& (2 - 1) = 0)

/-- C10: for every `KernelTraits` construction (any configuration
arguments), the SMEM pool holds exactly 7 chunk descriptors and the TMEM
pool exactly 4; the reuse flags are `[false, false, false,
doesSplitKUseDsmem(splitK), false, false, false]` for SMEM — so chunk 0 is
never reused and only SMEM chunk 3 can be — and all-`false` for TMEM;
hence every index a named accessor uses (0–6 for SMEM, 0–3 for TMEM) is
within its pool and every offset query an accessor makes succeeds, the
reuse delegation stopping at chunk 0 after at most one step. -/
theorem claim_C10 (t : KernelTraits) (dtypeEltBits dtypeCBits dtypeAccBits
    tileM tileN tileK epilogueTileM epilogueTileN numStages numStagesMma
    numSlicesForSplitK numSlicesForSliceK : Nat)
    (splitKUsesDsmem useTmaStore transposeMmaOutput allReduceTwoShot
    useDeepSeekFp8 dtypeEltIsBlockFmt : Bool)
    (ht : t = mkKernelTraits dtypeEltBits dtypeCBits dtypeAccBits tileM
      tileN tileK epilogueTileM epilogueTileN numStages numStagesMma
      numSlicesForSplitK numSlicesForSliceK splitKUsesDsmem useTmaStore
      transposeMmaOutput allReduceTwoShot useDeepSeekFp8
      dtypeEltIsBlockFmt) :
    t.mSmemAllocatorHelper.mNumBytesAndAlignmentPerSmemChunk.length = 7
    ∧ t.mSmemAllocatorHelper.mFirstChunkReuse
        = [false, false, false, splitKUsesDsmem, false, false, false]
    ∧ t.mTmemAllocatorHelper.mNumBytesAndAlignmentPerSmemChunk.length = 4
    ∧ t.mTmemAllocatorHelper.mFirstChunkReuse = [false, false, false, false]
    ∧ (∀ i, i < 7 → ∃ v, getChunkOffset t.mSmemAllocatorHelper i
        = Except.ok v)
    ∧ (∀ i, i < 4 → ∃ v, getChunkOffset t.mTmemAllocatorHelper i
        = Except.ok v)
    ∧ (∃ v, getSmemOffsetLoadA t = Except.ok v)
    ∧ (∃ v, getSmemOffsetLoadB t = Except.ok v)
    ∧ (∃ v, getSmemOffsetLoadAb t = Except.ok v)
    ∧ (∃ v, getSmemOffsetLoadShuffleB t = Except.ok v)
    ∧ (∀ r, r < 2 → ∃ v, getSmemOffsetGmemC t r = Except.ok v)
    ∧ (∃ v, getSmemOffsetRowMax t = Except.ok v)
    ∧ (∃ v, getSmemOffsetSliceK t = Except.ok v)
    ∧ (∃ v, getTmemOffsetD t = Except.ok v)
    ∧ (∃ v, getTmemOffsetA t = Except.ok v)
    ∧ (∃ v, getTmemOffsetSfA t = Except.ok v)
    ∧ (∃ v, getTmemOffsetSfB t = Except.ok v) := by
  subst ht
  have halS := smemChunksOf_alignsOk dtypeEltBits dtypeCBits dtypeAccBits
    tileM tileN tileK epilogueTileM epilogueTileN numStages
    numSlicesForSplitK numSlicesForSliceK splitKUsesDsmem useTmaStore
    transposeMmaOutput allReduceTwoShot useDeepSeekFp8
  have halT := tmemChunksOf_alignsOk dtypeEltBits dtypeAccBits tileM tileN
    tileK numStages numStagesMma numSlicesForSliceK dtypeEltIsBlockFmt
  have h0S : ∀ c0, (smemChunksOf dtypeEltBits dtypeCBits dtypeAccBits tileM
      tileN tileK epilogueTileM epilogueTileN numStages numSlicesForSplitK
      numSlicesForSliceK splitKUsesDsmem useTmaStore transposeMmaOutput
      allReduceTwoShot useDeepSeekFp8)[0]? = some c0 →
      c0.reuseFirstChunk = false := by
    intro c0 hc0
    cases hc0
    rfl
  have h0T : ∀ c0, (tmemChunksOf dtypeEltBits dtypeAccBits tileM tileN
      tileK numStages numStagesMma numSlicesForSliceK
      dtypeEltIsBlockFmt)[0]? = some c0 → c0.reuseFirstChunk = false := by
    intro c0 hc0
    cases hc0
    rfl
  have hS := pool_chunkOffsets_ok _ 7 halS h0S rfl
  have hT := pool_chunkOffsets_ok _ 4 halT h0T rfl
  refine ⟨rfl, ?_, rfl, rfl, hS, hT, hS 0 (by omega), hS 1 (by omega),
    hS 0 (by omega), hS 2 (by omega), ?_, hS 5 (by omega), hS 6 (by omega),
    hT 0 (by omega), hT 1 (by omega), hT 2 (by omega), hT 3 (by omega)⟩
  · simp [mkKernelTraits, helperOfChunks, smemChunksOf, gmemCChunk]
  · intro r hr
    interval_cases r
    · exact hS 3 (by omega)
    · exact hS 4 (by omega)

/-- Witness for C10 at a concrete configuration. -/
theorem claim_C10_witness :
    (mkKernelTraits 8 8 32 8 8 8 8 8 1 1 1 1 true false false false false
        false).mSmemAllocatorHelper.mNumBytesAndAlignmentPerSmemChunk.length
        = 7
    ∧ (mkKernelTraits 8 8 32 8 8 8 8 8 1 1 1 1 true false false false false
        false).mSmemAllocatorHelper.mFirstChunkReuse
        = [false, false, false, true, false, false, false]
    ∧ (mkKernelTraits 8 8 32 8 8 8 8 8 1 1 1 1 true false false false false
        false).mTmemAllocatorHelper.mNumBytesAndAlignmentPerSmemChunk.length
        = 4
    ∧ (mkKernelTraits 8 8 32 8 8 8 8 8 1 1 1 1 true false false false false
        false).mTmemAllocatorHelper.mFirstChunkReuse
        = [false, false, false, false]
    ∧ (∀ i, i < 7 → ∃ v, getChunkOffset (mkKernelTraits 8 8 32 8 8 8 8 8 1
        1 1 1 true false false false false false).mSmemAllocatorHelper i
        = Except.ok v)
    ∧ (∀ i, i < 4 → ∃ v, getChunkOffset (mkKernelTraits 8 8 32 8 8 8 8 8 1
        1 1 1 true false false false false false).mTmemAllocatorHelper i
        = Except.ok v)
    ∧ (∃ v, getSmemOffsetLoadA (mkKernelTraits 8 8 32 8 8 8 8 8 1 1 1 1
        true false false false false false) = Except.ok v)
    ∧ (∃ v, getSmemOffsetLoadB (mkKernelTraits 8 8 32 8 8 8 8 8 1 1 1 1
        true false false false false false) = Except.ok v)
    ∧ (∃ v, getSmemOffsetLoadAb (mkKernelTraits 8 8 32 8 8 8 8 8 1 1 1 1
        true false false false false false) = Except.ok v)
    ∧ (∃ v, getSmemOffsetLoadShuffleB (mkKernelTraits 8 8 32 8 8 8 8 8 1 1
        1 1 true false false false false false) = Except.ok v)
    ∧ (∀ r, r < 2 → ∃ v, getSmemOffsetGmemC (mkKernelTraits 8 8 32 8 8 8 8
        8 1 1 1 1 true false false false false false) r = Except.ok v)
    ∧ (∃ v, getSmemOffsetRowMax (mkKernelTraits 8 8 32 8 8 8 8 8 1 1 1 1
        true false false false false false) = Except.ok v)
    ∧ (∃ v, getSmemOffsetSliceK (mkKernelTraits 8 8 32 8 8 8 8 8 1 1 1 1
        true false false false false false) = Except.ok v)
    ∧ (∃ v, getTmemOffsetD (mkKernelTraits 8 8 32 8 8 8 8 8 1 1 1 1 true
        false false false false false) = Except.ok v)
    ∧ (∃ v, getTmemOffsetA (mkKernelTraits 8 8 32 8 8 8 8 8 1 1 1 1 true
        false false false false false) = Except.ok v)
    ∧ (∃ v, getTmemOffsetSfA (mkKernelTraits 8 8 32 8 8 8 8 8 1 1 1 1 true
        false false false false false) = Except.ok v)
    ∧ (∃ v, getTmemOffsetSfB (mkKernelTraits 8 8 32 8 8 8 8 8 1 1 1 1 true
        false false false false false) = Except.ok v) :=
  claim_C10 (mkKernelTraits 8 8 32 8 8 8 8 8 1 1 1 1 true false false false
    false false) 8 8 32 8 8 8 8 8 1 1 1 1 true false false false false
    false rfl

end gemm
